import Mathlib

/-!
Verification of the mayu-ai-backend text-extraction pipeline.

Shallow embedding of the Python sources `src/app/main.py`, `src/main.py` and
`src/storage.py`.  Text is modelled as a list of characters (`Str`); Python
string methods (`strip`, `lower`, slicing, `in`, f-strings) become the
corresponding list operations; code that can raise becomes `Except Str`
values, and a `try/except` becomes a `match` on that `Except`.
-/

namespace Mayu

/-- Python `str`, modelled as a list of characters. -/
abbrev Str := List Char

/-- Coerce a Lean string literal into the model. -/
def str (s : String) : Str := s.data

/-- Python whitespace test used by `str.strip` (ASCII fragment). -/
def ws (c : Char) : Bool := c.isWhitespace

/-- Python `str.lstrip()`. -/
def lstrip (s : Str) : Str := s.dropWhile ws

/-- Python `str.rstrip()`. -/
def rstrip (s : Str) : Str := (s.reverse.dropWhile ws).reverse

/-- Python `str.strip()`. -/
def strip (s : Str) : Str := rstrip (lstrip s)

/-- Python `str.lower()`. -/
def lower (s : Str) : Str := s.map Char.toLower

/-- Test that `needle` is a prefix of the second argument (helper for substring tests). -/
def isPrefOf : Str → Str → Bool
  | [], _ => true
  | _ :: _, [] => false
  | c :: cs, d :: ds => decide (c = d) && isPrefOf cs ds

/-- Python `needle in hay` substring test. -/
def hasSub (needle : Str) : Str → Bool
  | [] => isPrefOf needle []
  | c :: cs => isPrefOf needle (c :: cs) || hasSub needle cs

/-! ### Basic facts about `strip` -/

theorem dropWhile_head_false (p : Char → Bool) :
    ∀ (l : Str) (c : Char) (t : Str), l.dropWhile p = c :: t → p c = false := by
  intro l
  induction l with
  | nil => intro c t h; simp [List.dropWhile] at h
  | cons a l ih =>
    intro c t h
    by_cases hp : p a
    · rw [List.dropWhile_cons_of_pos hp] at h
      exact ih c t h
    · rw [List.dropWhile_cons_of_neg hp] at h
      cases h
      simpa using hp

theorem dropWhile_all_mem (p : Char → Bool) :
    ∀ (l : Str), l.dropWhile p = [] → ∀ c ∈ l, p c = true := by
  intro l
  induction l with
  | nil => intro _ c hc; simp at hc
  | cons a l ih =>
    intro h c hc
    by_cases hp : p a
    · rw [List.dropWhile_cons_of_pos hp] at h
      rcases List.mem_cons.mp hc with rfl | hc'
      · exact hp
      · exact ih h c hc'
    · rw [List.dropWhile_cons_of_neg hp] at h
      exact absurd h (by simp)

theorem dropWhile_nil_of_all (p : Char → Bool) :
    ∀ (l : Str), (∀ c ∈ l, p c = true) → l.dropWhile p = [] := by
  intro l
  induction l with
  | nil => intro _; rfl
  | cons a l ih =>
    intro h
    have hp : p a = true := h a (List.mem_cons_self a l)
    rw [List.dropWhile_cons_of_pos hp]
    exact ih (fun c hc => h c (List.mem_cons_of_mem a hc))

/-- A list decomposes as its `rstrip` followed by trailing whitespace. -/
theorem rstrip_decomp (l : Str) :
    l = rstrip l ++ (l.reverse.takeWhile ws).reverse ∧
      ∀ c ∈ (l.reverse.takeWhile ws).reverse, ws c = true := by
  constructor
  · have h := List.takeWhile_append_dropWhile (p := ws) (l := l.reverse)
    have h2 := congrArg List.reverse h
    rw [List.reverse_append, List.reverse_reverse] at h2
    exact h2.symm
  · intro c hc
    rw [List.mem_reverse] at hc
    exact List.mem_takeWhile_imp hc

theorem lstrip_head_false (l : Str) (c : Char) (t : Str)
    (h : lstrip l = c :: t) : ws c = false :=
  dropWhile_head_false ws l c t h

theorem strip_reverse_eq (l : Str) :
    (strip l).reverse = (lstrip l).reverse.dropWhile ws := by
  unfold strip rstrip
  rw [List.reverse_reverse]

theorem strip_head_false (l : Str) (c : Char) (t : Str)
    (h : strip l = c :: t) : ws c = false := by
  unfold strip rstrip at h
  have hd := rstrip_decomp (lstrip l)
  unfold rstrip at hd
  rcases hd with ⟨hdec, _⟩
  rw [h] at hdec
  cases hlst : lstrip l with
  | nil =>
    rw [hlst] at hdec
    simp at hdec
  | cons a t' =>
    rw [hlst] at hdec
    have hca : a = c := by
      have h' := congrArg List.head? hdec
      simpa using h'
    subst hca
    exact lstrip_head_false l a t' hlst

theorem strip_last_false (l : Str) (c : Char) (t : Str)
    (h : (strip l).reverse = c :: t) : ws c = false := by
  rw [strip_reverse_eq] at h
  exact dropWhile_head_false ws _ c t h

/-- Function `strip` is the identity on a list whose first and last characters are not whitespace. -/
theorem strip_noop (l : Str)
    (h1 : ∀ c t, l = c :: t → ws c = false)
    (h2 : ∀ c t, l.reverse = c :: t → ws c = false) : strip l = l := by
  have hl : lstrip l = l := by
    cases hl : l with
    | nil => simp [lstrip, hl]
    | cons a t =>
      have := h1 a t hl
      unfold lstrip
      rw [List.dropWhile_cons_of_neg (by simp [this])]
  unfold strip
  rw [hl]
  unfold rstrip
  cases hr : l.reverse with
  | nil =>
    have : l = [] := by simpa using congrArg List.reverse hr
    simp [this]
  | cons a t =>
    have := h2 a t hr
    rw [List.dropWhile_cons_of_neg (by simp [this]), ← hr, List.reverse_reverse]

/-- Function `strip` is idempotent. -/
theorem strip_idem (l : Str) : strip (strip l) = strip l := by
  apply strip_noop
  · intro c t h; exact strip_head_false l c t h
  · intro c t h; exact strip_last_false l c t h

theorem length_dropWhile_le (p : Char → Bool) (l : Str) :
    (l.dropWhile p).length ≤ l.length :=
  (List.dropWhile_sublist (p := p) (l := l)).length_le

theorem strip_length_le (l : Str) : (strip l).length ≤ l.length := by
  unfold strip rstrip lstrip
  calc ((l.dropWhile ws).reverse.dropWhile ws).reverse.length
      = ((l.dropWhile ws).reverse.dropWhile ws).length := List.length_reverse _
    _ ≤ (l.dropWhile ws).reverse.length := length_dropWhile_le ws _
    _ = (l.dropWhile ws).length := List.length_reverse _
    _ ≤ l.length := length_dropWhile_le ws l

/-- Function `strip` returns empty iff the input is all whitespace. -/
theorem strip_empty_iff (l : Str) : strip l = [] ↔ ∀ c ∈ l, ws c = true := by
  constructor
  · intro h c hc
    have hrev : (strip l).reverse = [] := by rw [h]; rfl
    rw [strip_reverse_eq] at hrev
    have hall : ∀ c ∈ (lstrip l).reverse, ws c = true := dropWhile_all_mem ws _ hrev
    have hall' : ∀ c ∈ lstrip l, ws c = true := by
      intro c hc; exact hall c (List.mem_reverse.mpr hc)
    have hsplit := List.takeWhile_append_dropWhile (p := ws) (l := l)
    rw [← hsplit] at hc
    rcases List.mem_append.mp hc with htk | hdp
    · exact List.mem_takeWhile_imp htk
    · exact hall' c hdp
  · intro h
    have hl : lstrip l = [] := dropWhile_nil_of_all ws l h
    unfold strip
    rw [hl]
    rfl

/-- If every character of `strip l` is whitespace then `strip l` is empty. -/
theorem strip_all_ws_nil (l : Str) (h : ∀ c ∈ strip l, ws c = true) :
    strip l = [] := by
  cases hs : strip l with
  | nil => rfl
  | cons c t =>
    have h1 : ws c = false := strip_head_false l c t hs
    have h2 : ws c = true := by
      apply h; rw [hs]; exact List.mem_cons_self c t
    rw [h1] at h2
    exact absurd h2 (by simp)

/-! ### `src/app/main.py`: extension tables and classification -/

/-- Table `IMAGE_EXTS` from `src/app/main.py`. -/
def IMAGE_EXTS : List Str :=
  [str ".png", str ".jpg", str ".jpeg", str ".webp", str ".tif", str ".tiff", str ".bmp"]

/-- Table `TEXT_EXTS` from `src/app/main.py`. -/
def TEXT_EXTS : List Str := [str ".txt", str ".md"]

/-- Table `PDF_EXTS` from `src/app/main.py`. -/
def PDF_EXTS : List Str := [str ".pdf"]

/-- Table `AUDIO_EXTS` from `src/app/main.py`. -/
def AUDIO_EXTS : List Str :=
  [str ".m4a", str ".mp3", str ".wav", str ".aac", str ".ogg", str ".webm"]

/-- CPython `pathlib.PurePath.suffix`: the part of the final component from the
last dot on, provided that dot is neither the first nor the last character. -/
def pathSuffix (name : Str) : Str :=
  match name.reverse.findIdx? (fun c => c = '.') with
  | none => []
  | some j =>
    let i := name.length - 1 - j
    if 0 < i ∧ i < name.length - 1 then name.drop i else []

/-- Helper `_ext` from `src/app/main.py`: `p.suffix.lower()`. -/
def _ext (p : Str) : Str := lower (pathSuffix p)

/-- The closed kind enumeration of the spec's Content Sniffer (§3). -/
inductive DocumentKind
  | plainText
  | pdf
  | image
  | audio
  | unsupported
deriving DecidableEq

/-- Classification as implemented by `src/app/main.py`: the chained extension
tests of `extract_text_from_any` (text / image / pdf) together with the
`AUDIO_EXTS` test of `transcribe_audio_with_openai`.  The declared
content-type is never consulted by this code. -/
def classify (filename : Str) (content_type : Str) : DocumentKind :=
  let ext := _ext filename
  if ext ∈ TEXT_EXTS then .plainText
  else if ext ∈ IMAGE_EXTS then .image
  else if ext ∈ PDF_EXTS then .pdf
  else if ext ∈ AUDIO_EXTS then .audio
  else .unsupported

/-! ### `src/app/main.py`: PDF extraction -/

/-- Function `_extract_pdf_text` from `src/app/main.py`: strip each page's text, keep the
non-empty ones, join with a blank line, strip the join.  Every page of the
document is visited — there is no page cap and no character cap. -/
def _extract_pdf_text (pageTexts : List Str) : Str :=
  strip (List.intercalate (str "\n\n")
    ((pageTexts.map strip).filter (fun t => t ≠ [])))

/-- Function `_ocr_pdf_if_needed` from `src/app/main.py`: OCR the first
`min(len(doc), max_pages)` rendered pages, keep non-empty stripped outputs,
join with a blank line, strip the join. -/
def _ocr_pdf_if_needed (ocrTexts : List Str) (max_pages : Nat) : Str :=
  strip (List.intercalate (str "\n\n")
    (((ocrTexts.take (min ocrTexts.length max_pages)).map strip).filter (fun t => t ≠ [])))

/-- The PDF branch of `extract_text_from_any`, with a flag recording whether
the OCR fallback stage was invoked (`True` exactly when the direct extraction
returned an empty string). -/
def extract_pdf_app (pageTexts ocrTexts : List Str) : Str × Bool :=
  let txt := _extract_pdf_text pageTexts
  if txt ≠ [] then (txt, false)
  else (strip (_ocr_pdf_if_needed ocrTexts 5), true)

/-! ### `src/app/main.py`: per-file extraction and the batch loops -/

/-- One stored upload, as seen by `extract_text_from_any` and
`transcribe_audio_with_openai`.  Each external-engine call that can raise is
an `Except Str` value whose `error` carries the exception message:
`imageOcr` is `_ocr_image_file` (PIL + tesseract), `pdfPages` is
`fitz.open` + per-page `get_text`, `pdfOcr` is page rendering + tesseract,
`audioTranscript` is the OpenAI transcription call.  `textContent` is total
because `_read_text_file` decodes with `errors="ignore"`. -/
structure FileData where
  filename : Str
  textContent : Str
  imageOcr : Except Str Str
  pdfPages : Except Str (List Str)
  pdfOcr : Except Str (List Str)
  audioTranscript : Except Str Str

/-- Function `extract_text_from_any` from `src/app/main.py`.  An unsupported extension
raises `HTTPException(400, "Tipo de archivo no soportado: {ext}")`, modelled
as an `error` carrying the detail string. -/
def extract_text_from_any (f : FileData) : Except Str Str :=
  let ext := _ext f.filename
  if ext ∈ TEXT_EXTS then .ok (strip f.textContent)
  else if ext ∈ IMAGE_EXTS then
    match f.imageOcr with
    | .error e => .error e
    | .ok t => .ok (strip t)
  else if ext ∈ PDF_EXTS then
    match f.pdfPages with
    | .error e => .error e
    | .ok pgs =>
      if _extract_pdf_text pgs ≠ [] then .ok (_extract_pdf_text pgs)
      else
        match f.pdfOcr with
        | .error e => .error e
        | .ok opgs => .ok (strip (_ocr_pdf_if_needed opgs 5))
  else .error (str "Tipo de archivo no soportado: " ++ ext)

/-- Function `transcribe_audio_with_openai` from `src/app/main.py`. -/
def transcribe_audio_with_openai (f : FileData) : Except Str Str :=
  let ext := _ext f.filename
  if ext ∈ AUDIO_EXTS then
    match f.audioTranscript with
    | .error e => .error (str "Error transcribiendo audio: " ++ e)
    | .ok t => .ok (strip t)
  else .error (str "Archivo no es audio soportado: " ++ ext)

/-- The blob store (`resolve_file_path`) and extraction, composed: the body of
the `try` block shared by the `extract_many` and `auto_refine` loops.  The
environment maps a file id to its stored file, or to the message of the
`FileNotFoundError` / lookup failure. -/
def tryExtract (env : Str → Except Str FileData) (fid : Str) : Except Str Str :=
  match env fid with
  | .error e => .error e
  | .ok f => extract_text_from_any f

/-- One iteration of the attachment loop shared by `extract_many` and
`auto_refine`: a caught exception becomes an inline error marker, a non-empty
text becomes a labelled document section, an empty text contributes nothing. -/
def processFid (env : Str → Except Str FileData) (fid : Str) : Option Str :=
  match tryExtract env fid with
  | .error e => some (str "--- Error " ++ fid ++ str ": " ++ e ++ str " ---")
  | .ok text =>
    if text ≠ [] then some (str "--- Documento " ++ fid ++ str " ---\n" ++ text)
    else none

/-- The parts accumulated by the attachment loop, in input order. -/
def attachmentsParts (env : Str → Except Str FileData) (fids : List Str) : List Str :=
  fids.filterMap (processFid env)

/-- Endpoint `extract_many` from `src/app/main.py`: the combined text it returns. -/
def extract_many (env : Str → Except Str FileData) (fids : List Str) : Str :=
  strip (List.intercalate (str "\n\n") (attachmentsParts env fids))

/-- One iteration of the `auto_refine` audio loop; note it appends a part even
when the transcript is empty. -/
def processAudioFid (env : Str → Except Str FileData) (fid : Str) : Str :=
  match
    (match env fid with
     | .error e => .error e
     | .ok f => transcribe_audio_with_openai f : Except Str Str) with
  | .error e => str "--- Error audio " ++ fid ++ str ": " ++ e ++ str " ---"
  | .ok t => str "--- Audio " ++ fid ++ str " ---\n" ++ t

/-- The unified document assembled by `auto_refine` in `src/app/main.py`:
doctor text first, then the attachment sections in request order, then the
audio sections in request order. -/
def auto_refine_unified (env : Str → Except Str FileData) (doctorText : Str)
    (file_ids audio_file_ids : List Str) : Str :=
  let attachments_text :=
    strip (List.intercalate (str "\n\n") (attachmentsParts env file_ids))
  let transcript_text :=
    strip (List.intercalate (str "\n\n") (audio_file_ids.map (processAudioFid env)))
  str "DOCTOR:\n" ++ doctorText ++ str "\n\nADJUNTOS:\n" ++ attachments_text
    ++ str "\n\nAUDIO:\n" ++ transcript_text ++ str "\n"

/-! ### Truncation: `_truncate` (`src/app/main.py`) and `_clip_text` (`src/main.py`) -/

/-- Function `_truncate` from `src/app/main.py` (default budget 45000). -/
def _truncate (text : Str) (max_chars : Nat) : Str :=
  let text := strip text
  if text.length ≤ max_chars then text
  else text.take max_chars ++ str "\n\n[TRUNCADO POR LÍMITE DE TAMAÑO]"

/-- Function `_clip_text` from `src/main.py`. -/
def _clip_text (s : Str) (max_chars : Nat) : Str :=
  let s := strip s
  if s = [] then []
  else if s.length ≤ max_chars then s
  else rstrip (s.take max_chars) ++ str "\n\n[...TRUNCADO POR LÍMITE...]"

/-! ### `src/main.py`: the `/extract` endpoint's PDF pipeline -/

/-- One loop body of the PDF stages of `src/main.py` `extract`: append the
stripped page text followed by a blank line when it is non-empty. -/
def clipStep (acc p : Str) : Str :=
  if strip p ≠ [] then acc ++ strip p ++ str "\n\n" else acc

/-- The page-accumulation loop shared by all three PDF stages of
`src/main.py` `extract`: run `clipStep` per page and break as soon as the
accumulated length reaches the character cap.  The break test runs after
every iteration, even when the page contributed nothing. -/
def clipLoop (cap : Nat) (acc : Str) : List Str → Str
  | [] => acc
  | p :: ps =>
    if cap ≤ (clipStep acc p).length then clipStep acc p
    else clipLoop cap (clipStep acc p) ps

/-- An uploaded PDF as seen by `src/main.py` `extract`: each stage's engine
work is an `Except` whose `error` stands for any exception in that stage's
`try` block (the stage then falls back to the empty string). -/
structure UploadPdf where
  fitzPages : Except Str (List Str)
  pypdfPages : Except Str (List Str)
  ocrImages : Except Str (List Str)

/-- Stage 1 of `src/main.py` `extract`: PyMuPDF over the first
`min(len(doc), MAX_PDF_PAGES)` pages; any exception resets the result to `""`. -/
def srcStageFitz (u : UploadPdf) (mp cap : Nat) : Str :=
  match u.fitzPages with
  | .error _ => []
  | .ok pgs => clipLoop cap [] (pgs.take (min pgs.length mp))

/-- Stage 2 of `src/main.py` `extract`: PyPDF2, same loop and caps. -/
def srcStagePyPDF (u : UploadPdf) (mp cap : Nat) : Str :=
  match u.pypdfPages with
  | .error _ => []
  | .ok pgs => clipLoop cap [] (pgs.take (min pgs.length mp))

/-- Stage 3 of `src/main.py` `extract`: pdf2image renders at most
`MAX_PDF_PAGES` pages (`last_page=MAX_PDF_PAGES`), then the same loop. -/
def srcStageOcr (u : UploadPdf) (mp cap : Nat) : Str :=
  match u.ocrImages with
  | .error _ => []
  | .ok imgs => clipLoop cap [] (imgs.take mp)

/-- The direct (embedded-text) extraction of `src/main.py` `extract`:
stage 1, then stage 2 when stage 1 produced only whitespace. -/
def srcPdfDirect (u : UploadPdf) (mp cap : Nat) : Str :=
  let e1 := srcStageFitz u mp cap
  if strip e1 = [] then srcStagePyPDF u mp cap else e1

/-- The PDF branch of `src/main.py` `extract`: direct extraction, OCR only
when the direct result is whitespace-only, then
`_clip_text(extracted, MAX_EXTRACT_CHARS) or "NR"`.  The flag records whether
the OCR stage ran. -/
def srcPdfExtract (u : UploadPdf) (mp cap : Nat) : Str × Bool :=
  let direct := srcPdfDirect u mp cap
  let usedOcr := strip direct = []
  let extracted := if strip direct = [] then srcStageOcr u mp cap else direct
  let clipped := _clip_text extracted cap
  ((if clipped = [] then str "NR" else clipped), usedOcr)

/-- Expression `ext = filename.split(".")[-1] if "." in filename else ""` from
`src/main.py` `extract` (the filename is lower-cased first). -/
def srcExt (filename : Str) : Str :=
  let f := lower filename
  if f.contains '.' then (f.splitOn '.').getLastD [] else []

/-- An upload as seen by `src/main.py` `extract`. -/
structure SrcUpload where
  filename : Str
  pdf : UploadPdf
  imageOcr : Except Str Str

/-- The `/extract` endpoint of `src/main.py`: the `text` field it returns.
PDF uploads go through the three-stage pipeline; image extensions go through
OCR (any exception yields `"NR"`); every other extension yields `"NR"` with
no error and no mention of the file kind. -/
def extract_endpoint_src (u : SrcUpload) (mp cap : Nat) : Str :=
  let ext := srcExt u.filename
  if ext = str "pdf" then (srcPdfExtract u.pdf mp cap).1
  else if ext ∈ [str "jpg", str "jpeg", str "png", str "webp", str "tif", str "tiff"] then
    match u.imageOcr with
    | .error _ => str "NR"
    | .ok t =>
      let text_out := if strip t = [] then str "NR" else strip t
      _clip_text text_out cap
  else str "NR"

/-! ### `src/app/main.py`: `refine_with_openai` response repair -/

/-- A JSON value, as produced by `json.loads` on the refiner client's reply. -/
inductive JValue
  | null
  | jstr (s : Str)
  | jnum (n : Int)
  | jbool (b : Bool)
  | jarr (elems : List JValue)
  | jobj (fields : List (Str × JValue))

/-- Python truthiness on a JSON value. -/
def truthy : JValue → Bool
  | .null => false
  | .jstr s => decide (s ≠ [])
  | .jnum n => decide (n ≠ 0)
  | .jbool b => b
  | .jarr l => !l.isEmpty
  | .jobj l => !l.isEmpty

/-- Python `x or y`. -/
def pyOr (x y : JValue) : JValue := if truthy x then x else y

/-- Python `v.get(k)`: `None` for a missing key, `AttributeError` when `v` is
not a dict. -/
def pyGet (v : JValue) (k : Str) : Except Str JValue :=
  match v with
  | .jobj fields =>
    .ok (match fields.lookup k with
         | some x => x
         | none => .null)
  | _ => .error (str "AttributeError: get")

/-- Python `v.strip()`: `AttributeError` when `v` is not a string. -/
def pyStripMethod (v : JValue) : Except Str Str :=
  match v with
  | .jstr s => .ok (strip s)
  | _ => .error (str "AttributeError: strip")

/-- One field coercion of `refine_with_openai`:
`(container.get(k) or "").strip() or "NR"`. -/
def coerceField (container : JValue) (k : Str) : Except Str Str :=
  match pyGet container k with
  | .error e => .error e
  | .ok v =>
    match pyStripMethod (pyOr v (.jstr [])) with
    | .error e => .error e
    | .ok s => .ok (if s = [] then str "NR" else s)

/-- The repaired response shape: the `soap` dict's four keys plus `summary`
and `rp`. -/
structure SoapOut where
  S : Str
  O : Str
  A : Str
  P : Str
  summary : Str
  rp : Str
deriving DecidableEq

/-- The body of the `try` block of `refine_with_openai` after `json.loads`:
builds the output dict field by field; any exception escapes to the caller's
`except`. -/
def refineBody (data : JValue) : Except Str SoapOut :=
  match pyGet data (str "soap") with
  | .error e => .error e
  | .ok soapRaw =>
    let soap := pyOr soapRaw (.jobj [])
    match coerceField soap (str "S") with
    | .error e => .error e
    | .ok sS =>
      match coerceField soap (str "O") with
      | .error e => .error e
      | .ok sO =>
        match coerceField soap (str "A") with
        | .error e => .error e
        | .ok sA =>
          match coerceField soap (str "P") with
          | .error e => .error e
          | .ok sP =>
            match coerceField data (str "summary") with
            | .error e => .error e
            | .ok sSummary =>
              match coerceField data (str "rp") with
              | .error e => .error e
              | .ok sRp =>
                .ok { S := sS, O := sO, A := sA, P := sP,
                      summary := sSummary, rp := sRp }

/-- Function `refine_with_openai` from `src/app/main.py`, as a function of the refiner
client's outcome: `error` stands for any exception before or during JSON
parsing (API failure, malformed JSON) or while reshaping, and the `except`
branch substitutes the fixed fallback dict. -/
def refine_with_openai (clientResult : Except Str JValue) : SoapOut :=
  match
    (match clientResult with
     | .error e => .error e
     | .ok data => refineBody data : Except Str SoapOut) with
  | .ok out => out
  | .error e =>
    { S := str "NR", O := str "NR", A := str "Error IA: " ++ e, P := str "NR",
      summary := str "NR", rp := str "NR" }

/-! ### Supporting lemmas about truncation -/

theorem truncate_eq (text : Str) (N : Nat) :
    _truncate text N =
      if (strip text).length ≤ N then strip text
      else (strip text).take N ++ str "\n\n[TRUNCADO POR LÍMITE DE TAMAÑO]" := rfl

theorem clip_eq (s : Str) (N : Nat) :
    _clip_text s N =
      if strip s = [] then []
      else if (strip s).length ≤ N then strip s
      else rstrip ((strip s).take N) ++ str "\n\n[...TRUNCADO POR LÍMITE...]" := rfl

theorem rstrip_length_le (l : Str) : (rstrip l).length ≤ l.length := by
  unfold rstrip
  calc (l.reverse.dropWhile ws).reverse.length
      = (l.reverse.dropWhile ws).length := List.length_reverse _
    _ ≤ l.reverse.length := length_dropWhile_le ws _
    _ = l.length := List.length_reverse l

/-- Pushing a head whose first character is not whitespace through `++`. -/
theorem head_false_append (a b : Str)
    (hne : a ≠ []) (h : ∀ d u, a = d :: u → ws d = false) :
    ∀ d u, a ++ b = d :: u → ws d = false := by
  cases a with
  | nil => exact absurd rfl hne
  | cons x xs =>
    intro d u hdu
    have hx : x = d := by
      have := congrArg List.head? hdu
      simpa using this
    subst hx
    exact h x xs rfl

theorem marker1_rev_head :
    ∀ d u, (str "\n\n[TRUNCADO POR LÍMITE DE TAMAÑO]").reverse = d :: u → ws d = false := by
  intro d u hdu
  have h' : (str "\n\n[TRUNCADO POR LÍMITE DE TAMAÑO]").reverse
      = ']' :: (str "\n\n[TRUNCADO POR LÍMITE DE TAMAÑO]").reverse.tail := by decide
  rw [h'] at hdu
  cases hdu
  decide

/-- Function `_truncate` is idempotent: the truncated head has exactly `N` characters,
so re-truncating cuts exactly at the marker boundary. -/
theorem truncate_idem (text : Str) (N : Nat) :
    _truncate (_truncate text N) N = _truncate text N := by
  by_cases hle : (strip text).length ≤ N
  · have h1 : _truncate text N = strip text := by rw [truncate_eq, if_pos hle]
    rw [h1, truncate_eq, strip_idem, if_pos hle]
  · have h1 : _truncate text N
        = (strip text).take N ++ str "\n\n[TRUNCADO POR LÍMITE DE TAMAÑO]" := by
      rw [truncate_eq, if_neg hle]
    rw [h1]
    cases N with
    | zero =>
      simp only [List.take_zero, List.nil_append]
      decide
    | succ n =>
      have hlt : n + 1 < (strip text).length := Nat.lt_of_not_le hle
      obtain ⟨c, t', htc⟩ : ∃ c t', strip text = c :: t' := by
        cases ht : strip text with
        | nil => rw [ht] at hlt; simp at hlt
        | cons a b => exact ⟨a, b, rfl⟩
      have hcws : ws c = false := strip_head_false text c t' htc
      have hhead : ∀ d u, (strip text).take (n+1) = d :: u → ws d = false := by
        intro d u hdu
        rw [htc, List.take_succ_cons] at hdu
        cases hdu
        exact hcws
      have htake_ne : (strip text).take (n+1) ≠ [] := by
        rw [htc, List.take_succ_cons]
        simp
      have hsr :
          strip ((strip text).take (n+1) ++ str "\n\n[TRUNCADO POR LÍMITE DE TAMAÑO]")
            = (strip text).take (n+1) ++ str "\n\n[TRUNCADO POR LÍMITE DE TAMAÑO]" := by
        apply strip_noop
        · exact head_false_append _ _ htake_ne hhead
        · intro d u hdu
          rw [List.reverse_append] at hdu
          exact head_false_append _ _ (by decide) marker1_rev_head d u hdu
      have hlenr :
          ((strip text).take (n+1) ++ str "\n\n[TRUNCADO POR LÍMITE DE TAMAÑO]").length
            = (n+1) + (str "\n\n[TRUNCADO POR LÍMITE DE TAMAÑO]").length := by
        rw [List.length_append, List.length_take, Nat.min_eq_left (Nat.le_of_lt hlt)]
      have hnot :
          ¬ ((strip text).take (n+1) ++ str "\n\n[TRUNCADO POR LÍMITE DE TAMAÑO]").length
            ≤ n + 1 := by
        rw [hlenr]
        have : 0 < (str "\n\n[TRUNCADO POR LÍMITE DE TAMAÑO]").length := by decide
        omega
      rw [truncate_eq, hsr, if_neg hnot]
      rw [List.take_append_eq_append_take, List.take_take, Nat.min_self, List.length_take,
          Nat.min_eq_left (Nat.le_of_lt hlt), Nat.sub_self, List.take_zero, List.append_nil]

/-- Function `_clip_text` is idempotent on inputs that fit the budget after stripping. -/
theorem clip_idem_within (text : Str) (N : Nat) (h : (strip text).length ≤ N) :
    _clip_text (_clip_text text N) N = _clip_text text N := by
  by_cases hnil : strip text = []
  · have h1 : _clip_text text N = [] := by rw [clip_eq, if_pos hnil]
    rw [h1]
    rfl
  · have h1 : _clip_text text N = strip text := by rw [clip_eq, if_neg hnil, if_pos h]
    rw [h1, clip_eq, strip_idem, if_neg hnil, if_pos h]

/-- C5 counterexample: both truncation functions strip before testing the
budget, so a string with surrounding whitespace is not returned unchanged even
though its length is within the budget. -/
theorem truncation_identity_cex :
    (str " a ").length ≤ 10
      ∧ _truncate (str " a ") 10 ≠ str " a "
      ∧ _clip_text (str " a ") 10 ≠ str " a " := by decide

/-- C5 (amended): within the budget, truncation returns the input stripped of
leading and trailing whitespace but otherwise unchanged — for both `_truncate`
(`src/app/main.py`) and `_clip_text` (`src/main.py`). -/
theorem truncation_identity_within_budget (text : Str) (N : Nat) (h : text.length ≤ N) :
    _truncate text N = strip text ∧ _clip_text text N = strip text := by
  have hs : (strip text).length ≤ N := le_trans (strip_length_le text) h
  constructor
  · rw [truncate_eq, if_pos hs]
  · by_cases hnil : strip text = []
    · rw [clip_eq, if_pos hnil, hnil]
    · rw [clip_eq, if_neg hnil, if_pos hs]

theorem truncation_identity_within_budget_witness :
    (str " a ").length ≤ 10
      ∧ (_truncate (str " a ") 10 = strip (str " a ")
        ∧ _clip_text (str " a ") 10 = strip (str " a ")) :=
  ⟨by decide, truncation_identity_within_budget (str " a ") 10 (by decide)⟩

/-- C6 counterexample: `_clip_text` rstrips the clipped head, so the second
application can cut inside the appended marker and duplicate its prefix —
`_clip_text` from `src/main.py` is not idempotent. -/
theorem truncation_idempotent_cex :
    _clip_text (_clip_text (str "ab   xxxx") 5) 5 ≠ _clip_text (str "ab   xxxx") 5 := by decide

/-- C6 (amended): `_truncate` (`src/app/main.py`) is idempotent for every text
and bound; `_clip_text` (`src/main.py`) is idempotent whenever the stripped
text fits the budget, but not in general. -/
theorem truncation_idempotent :
    (∀ (text : Str) (N : Nat), _truncate (_truncate text N) N = _truncate text N)
      ∧ (∀ (text : Str) (N : Nat), (strip text).length ≤ N →
          _clip_text (_clip_text text N) N = _clip_text text N) :=
  ⟨truncate_idem, clip_idem_within⟩

theorem truncation_idempotent_witness :
    _truncate (_truncate (str "hola doc") 3) 3 = _truncate (str "hola doc") 3
      ∧ ((strip (str " ok ")).length ≤ 9
        ∧ _clip_text (_clip_text (str " ok ") 9) 9 = _clip_text (str " ok ") 9) :=
  ⟨truncation_idempotent.1 (str "hola doc") 3,
    by decide, truncation_idempotent.2 (str " ok ") 9 (by decide)⟩

/-- C7: the output of truncation never exceeds the budget plus the length of
the fixed marker, for both `_truncate` and `_clip_text`. -/
theorem truncation_length_bound (text : Str) (N : Nat) :
    (_truncate text N).length ≤ N + (str "\n\n[TRUNCADO POR LÍMITE DE TAMAÑO]").length
      ∧ (_clip_text text N).length ≤ N + (str "\n\n[...TRUNCADO POR LÍMITE...]").length := by
  constructor
  · rw [truncate_eq]
    by_cases h : (strip text).length ≤ N
    · rw [if_pos h]
      omega
    · rw [if_neg h, List.length_append, List.length_take]
      have := Nat.min_le_left N (strip text).length
      omega
  · rw [clip_eq]
    by_cases hnil : strip text = []
    · rw [if_pos hnil]
      simp
    · rw [if_neg hnil]
      by_cases h : (strip text).length ≤ N
      · rw [if_pos h]
        omega
      · rw [if_neg h, List.length_append]
        have h1 : (rstrip ((strip text).take N)).length ≤ ((strip text).take N).length :=
          rstrip_length_le _
        have h2 : ((strip text).take N).length = min N (strip text).length :=
          List.length_take _ _
        have := Nat.min_le_left N (strip text).length
        omega

/-! ### Batch extraction and aggregation (C1, C4) -/

theorem attachmentsParts_append (env : Str → Except Str FileData) (xs ys : List Str) :
    attachmentsParts env (xs ++ ys) = attachmentsParts env xs ++ attachmentsParts env ys := by
  unfold attachmentsParts
  exact List.filterMap_append _ _ _

theorem processFid_error (env : Str → Except Str FileData) (fid m : Str)
    (h : tryExtract env fid = .error m) :
    processFid env fid = some (str "--- Error " ++ fid ++ str ": " ++ m ++ str " ---") := by
  unfold processFid
  rw [h]

theorem processFid_ok (env : Str → Except Str FileData) (fid t : Str)
    (h : tryExtract env fid = .ok t) (hne : t ≠ []) :
    processFid env fid = some (str "--- Documento " ++ fid ++ str " ---\n" ++ t) := by
  unfold processFid
  rw [h]
  exact if_pos hne

/-- C1: in `extract_many` (and the identical `auto_refine` attachment loop), a
failing file id — missing blob, unsupported kind, or engine error — is caught
and rendered as that id's inline error marker, in place; the ids before and
after it are processed exactly as they would be on their own, and the loop
never raises (in the model it is a total function into `Str`). -/
theorem extract_many_failure_contained (env : Str → Except Str FileData)
    (pre post : List Str) (fid m : Str) (h : tryExtract env fid = .error m) :
    attachmentsParts env (pre ++ fid :: post)
        = attachmentsParts env pre
          ++ (str "--- Error " ++ fid ++ str ": " ++ m ++ str " ---")
            :: attachmentsParts env post
      ∧ extract_many env (pre ++ fid :: post)
        = strip (List.intercalate (str "\n\n")
            (attachmentsParts env pre
              ++ (str "--- Error " ++ fid ++ str ": " ++ m ++ str " ---")
                :: attachmentsParts env post)) := by
  have hp := processFid_error env fid m h
  have hparts : attachmentsParts env (pre ++ fid :: post)
      = attachmentsParts env pre
        ++ (str "--- Error " ++ fid ++ str ": " ++ m ++ str " ---")
          :: attachmentsParts env post := by
    rw [attachmentsParts_append]
    congr 1
    unfold attachmentsParts
    rw [List.filterMap_cons, hp]
  refine ⟨hparts, ?_⟩
  unfold extract_many
  rw [hparts]

/-- A stored plain-text upload whose content is `A1`. -/
def fileTxtA1 : FileData :=
  ⟨str "a.txt", str "A1", .ok [], .ok [], .ok [], .ok []⟩

/-- Blob store for the C1 witness: id `1` resolves, every other id is a
`FileNotFoundError`. -/
def envC1 : Str → Except Str FileData := fun fid =>
  if fid = str "1" then .ok fileTxtA1 else .error (str "file_id not found")

theorem extract_many_failure_contained_witness :
    tryExtract envC1 (str "9") = Except.error (str "file_id not found")
      ∧ extract_many envC1 [str "1", str "9"]
        = str "--- Documento 1 ---\nA1\n\n--- Error 9: file_id not found ---" := by
  refine ⟨rfl, ?_⟩
  exact ((extract_many_failure_contained envC1 [str "1"] [] (str "9")
    (str "file_id not found") rfl).2).trans (by decide)

/-- C4: the unified document of `auto_refine` lists the doctor text first,
then the attachment sections in request order, then the audio sections; a
failing attachment id contributes, at its input position, a section whose body
carries the id and the failure reason, while a succeeding id contributes its
labelled text.  The loops are sequential, so order is input order by
construction and cannot depend on completion latency. -/
theorem auto_refine_order_and_failures (env : Str → Except Str FileData)
    (d : Str) (pre post : List Str) (fid m : Str) (aids : List Str)
    (h : tryExtract env fid = .error m) :
    auto_refine_unified env d (pre ++ fid :: post) aids
        = str "DOCTOR:\n" ++ d ++ str "\n\nADJUNTOS:\n"
          ++ strip (List.intercalate (str "\n\n")
              (attachmentsParts env pre
                ++ (str "--- Error " ++ fid ++ str ": " ++ m ++ str " ---")
                  :: attachmentsParts env post))
          ++ str "\n\nAUDIO:\n"
          ++ strip (List.intercalate (str "\n\n") (aids.map (processAudioFid env)))
          ++ str "\n"
      ∧ (∀ fid' t, tryExtract env fid' = .ok t → t ≠ [] →
          processFid env fid' = some (str "--- Documento " ++ fid' ++ str " ---\n" ++ t)) := by
  constructor
  · have hparts : attachmentsParts env (pre ++ fid :: post)
        = attachmentsParts env pre
          ++ (str "--- Error " ++ fid ++ str ": " ++ m ++ str " ---")
            :: attachmentsParts env post := by
      rw [attachmentsParts_append]
      congr 1
      unfold attachmentsParts
      rw [List.filterMap_cons, processFid_error env fid m h]
    unfold auto_refine_unified
    rw [hparts]
  · exact processFid_ok env

/-- Blob store for the C4 witness, realising the spec's worked example:
id `1` extracts to `A1`, id `2` fails with reason `bad format`. -/
def envC4 : Str → Except Str FileData := fun fid =>
  if fid = str "1" then .ok fileTxtA1 else .error (str "bad format")

theorem auto_refine_order_and_failures_witness :
    tryExtract envC4 (str "2") = Except.error (str "bad format")
      ∧ auto_refine_unified envC4 (str "D") [str "1", str "2"] []
        = str "DOCTOR:\nD\n\nADJUNTOS:\n--- Documento 1 ---\nA1\n\n--- Error 2: bad format ---\n\nAUDIO:\n\n" := by
  refine ⟨rfl, ?_⟩
  exact ((auto_refine_order_and_failures envC4 (str "D") [str "1"] [] (str "2")
    (str "bad format") [] rfl).1).trans (by decide)

/-! ### PDF two-stage fallback (C2) and classification (C3) -/

theorem extract_pdf_app_eq (pgs opgs : List Str) :
    extract_pdf_app pgs opgs =
      if _extract_pdf_text pgs ≠ [] then (_extract_pdf_text pgs, false)
      else (strip (_ocr_pdf_if_needed opgs 5), true) := rfl

theorem extract_pdf_branch (f : FileData) (h : _ext f.filename = str ".pdf") :
    extract_text_from_any f =
      match f.pdfPages with
      | .error e => .error e
      | .ok pgs =>
        if _extract_pdf_text pgs ≠ [] then .ok (_extract_pdf_text pgs)
        else
          match f.pdfOcr with
          | .error e => .error e
          | .ok opgs => .ok (strip (_ocr_pdf_if_needed opgs 5)) := by
  simp only [extract_text_from_any, h]
  rw [if_neg (by decide), if_neg (by decide), if_pos (by decide)]

/-- C2: OCR runs if and only if direct embedded-text extraction yields only
whitespace.  For `src/app/main.py`: when some character of the stage-(a)
result is not whitespace, that result is returned and the OCR stage is not
invoked; when the stage-(a) result is all whitespace, the OCR stage runs and
its output is the result; and `extract_text_from_any` returns exactly this on
PDF files.  For `src/main.py` `extract`: the OCR stage runs iff the direct
result (PyMuPDF, then PyPDF2) is whitespace-only. -/
theorem extract_pdf_ocr_iff_whitespace (pgs opgs : List Str) :
    ((∃ c ∈ _extract_pdf_text pgs, ws c = false) →
        extract_pdf_app pgs opgs = (_extract_pdf_text pgs, false))
      ∧ ((∀ c ∈ _extract_pdf_text pgs, ws c = true) →
        extract_pdf_app pgs opgs = (strip (_ocr_pdf_if_needed opgs 5), true))
      ∧ (∀ f : FileData, _ext f.filename = str ".pdf" →
          f.pdfPages = Except.ok pgs → f.pdfOcr = Except.ok opgs →
          extract_text_from_any f = Except.ok (extract_pdf_app pgs opgs).1)
      ∧ (∀ (u : UploadPdf) (mp cap : Nat),
          (srcPdfExtract u mp cap).2 = true ↔ ∀ c ∈ srcPdfDirect u mp cap, ws c = true) := by
  refine ⟨?_, ?_, ?_, ?_⟩
  · rintro ⟨c, hc, _⟩
    have hne : _extract_pdf_text pgs ≠ [] := List.ne_nil_of_mem hc
    rw [extract_pdf_app_eq, if_pos hne]
  · intro h
    have hnil : _extract_pdf_text pgs = [] := by
      unfold _extract_pdf_text at h ⊢
      exact strip_all_ws_nil _ h
    rw [extract_pdf_app_eq, hnil, if_neg (by simp)]
  · intro f hext hpp hpo
    rw [extract_pdf_branch f hext]
    simp only [hpp, hpo]
    rw [extract_pdf_app_eq]
    by_cases h : _extract_pdf_text pgs ≠ []
    · rw [if_pos h, if_pos h]
    · rw [if_neg h, if_neg h]
  · intro u mp cap
    have h2 : (srcPdfExtract u mp cap).2 = decide (strip (srcPdfDirect u mp cap) = []) := rfl
    rw [h2]
    constructor
    · intro h
      exact (strip_empty_iff _).mp (of_decide_eq_true h)
    · intro h
      exact decide_eq_true ((strip_empty_iff _).mpr h)

theorem extract_pdf_ocr_iff_whitespace_witness :
    (∃ c ∈ _extract_pdf_text [str "hello"], ws c = false)
      ∧ extract_pdf_app [str "hello"] [str "ocr"] = (_extract_pdf_text [str "hello"], false) :=
  ⟨by decide, (extract_pdf_ocr_iff_whitespace [str "hello"] [str "ocr"]).1 (by decide)⟩

/-- C3 counterexample: the live code classifies by extension only — a filename
with no extension and declared content-type `application/pdf` is classified
`unsupported`, not `pdf`. -/
theorem classify_content_type_cex :
    classify (str "file") (str "application/pdf") ≠ DocumentKind.pdf
      ∧ classify (str "file") (str "application/pdf") = DocumentKind.unsupported := by decide

/-- C3 (amended): classification is a deterministic, total, pure function, but
of the filename extension alone — the declared content-type is never
consulted, and a filename with an unrecognized extension classifies as
`unsupported` whatever the content-type says. -/
theorem classify_pure_ext_only (filename ct ct' : Str) :
    (∃! k, classify filename ct = k)
      ∧ classify filename ct = classify filename ct'
      ∧ (_ext filename ∉ TEXT_EXTS → _ext filename ∉ IMAGE_EXTS →
          _ext filename ∉ PDF_EXTS → _ext filename ∉ AUDIO_EXTS →
          classify filename ct = DocumentKind.unsupported) := by
  refine ⟨⟨classify filename ct, rfl, fun y hy => hy.symm⟩, rfl, ?_⟩
  intro h1 h2 h3 h4
  simp only [classify]
  rw [if_neg h1, if_neg h2, if_neg h3, if_neg h4]

theorem classify_pure_ext_only_witness :
    (_ext (str "report") ∉ TEXT_EXTS ∧ _ext (str "report") ∉ IMAGE_EXTS
      ∧ _ext (str "report") ∉ PDF_EXTS ∧ _ext (str "report") ∉ AUDIO_EXTS)
      ∧ classify (str "report") (str "application/pdf") = DocumentKind.unsupported :=
  ⟨⟨by decide, by decide, by decide, by decide⟩,
    (classify_pure_ext_only (str "report") (str "application/pdf") (str "text/plain")).2.2
      (by decide) (by decide) (by decide) (by decide)⟩

/-! ### Page and character caps (C8) -/

theorem take_min_eq (l : List Str) (n : Nat) : l.take (min l.length n) = l.take n := by
  rcases Nat.le_total l.length n with h | h
  · rw [Nat.min_eq_left h, List.take_length, List.take_of_length_le h]
  · rw [Nat.min_eq_right h]

theorem clipLoop_nil (cap : Nat) (acc : Str) : clipLoop cap acc [] = acc := rfl

theorem clipLoop_cons (cap : Nat) (acc p : Str) (ps : List Str) :
    clipLoop cap acc (p :: ps)
      = if cap ≤ (clipStep acc p).length then clipStep acc p
        else clipLoop cap (clipStep acc p) ps := rfl

/-- C8 counterexample: `_extract_pdf_text` in `src/app/main.py` visits every
page — page 6 still contributes to the output even though the only configured
page cap in that file is the OCR stage's 5. -/
theorem pdf_caps_cex :
    _extract_pdf_text [str "p1", str "p2", str "p3", str "p4", str "p5", str "p6"]
        ≠ _extract_pdf_text ([str "p1", str "p2", str "p3", str "p4", str "p5", str "p6"].take 5)
      ∧ _extract_pdf_text [str "p1", str "p2", str "p3", str "p4", str "p5", str "p6"]
        = str "p1\n\np2\n\np3\n\np4\n\np5\n\np6" := by decide

/-- C8 (amended): in `src/main.py` every PDF stage reads at most
`MAX_PDF_PAGES` pages and the accumulation loop ignores all pages after the
one that reaches `MAX_EXTRACT_CHARS`; in `src/app/main.py` only the OCR stage
is page-capped (at 5 pages) — `_extract_pdf_text` visits every page and
neither stage has a character cap. -/
theorem pdf_page_char_caps :
    (∀ (u : UploadPdf) (mp cap : Nat) (pgs : List Str), u.fitzPages = Except.ok pgs →
        srcStageFitz u mp cap = clipLoop cap [] (pgs.take mp))
      ∧ (∀ (u : UploadPdf) (mp cap : Nat) (pgs : List Str), u.pypdfPages = Except.ok pgs →
          srcStagePyPDF u mp cap = clipLoop cap [] (pgs.take mp))
      ∧ (∀ (cap : Nat) (ps : List Str), ps ≠ [] → ∀ (acc : Str) (qs : List Str),
          cap ≤ (clipLoop cap acc ps).length →
          clipLoop cap acc (ps ++ qs) = clipLoop cap acc ps)
      ∧ (∀ ocrTexts : List Str,
          _ocr_pdf_if_needed ocrTexts 5 = _ocr_pdf_if_needed (ocrTexts.take 5) 5) := by
  refine ⟨?_, ?_, ?_, ?_⟩
  · intro u mp cap pgs h
    unfold srcStageFitz
    simp only [h]
    rw [take_min_eq]
  · intro u mp cap pgs h
    unfold srcStagePyPDF
    simp only [h]
    rw [take_min_eq]
  · intro cap ps
    induction ps with
    | nil => intro hne; exact absurd rfl hne
    | cons p ps ih =>
      intro _ acc qs h
      rw [List.cons_append, clipLoop_cons, clipLoop_cons]
      by_cases hc : cap ≤ (clipStep acc p).length
      · rw [if_pos hc, if_pos hc]
      · rw [if_neg hc, if_neg hc]
        rw [clipLoop_cons, if_neg hc] at h
        cases ps with
        | nil =>
          rw [clipLoop_nil] at h
          exact absurd h hc
        | cons q qs' => exact ih (by simp) (clipStep acc p) qs h
  · intro l
    unfold _ocr_pdf_if_needed
    rw [take_min_eq, take_min_eq, List.take_take, Nat.min_self]

theorem pdf_page_char_caps_witness :
    ([str "abcd"] : List Str) ≠ []
      ∧ 3 ≤ (clipLoop 3 [] [str "abcd"]).length
      ∧ clipLoop 3 [] ([str "abcd"] ++ [str "x"]) = clipLoop 3 [] [str "abcd"] :=
  ⟨by decide, by decide,
    pdf_page_char_caps.2.2.1 3 [str "abcd"] (by decide) [] [str "x"] (by decide)⟩

/-! ### Unsupported kinds (C9) -/

theorem isPrefOf_append (n t : Str) : isPrefOf n (n ++ t) = true := by
  induction n with
  | nil => rfl
  | cons c cs ih => simp [isPrefOf, ih]

theorem hasSub_append (pre n : Str) : hasSub n (pre ++ n) = true := by
  induction pre with
  | nil =>
    cases n with
    | nil => rfl
    | cons c cs =>
      have hp : isPrefOf (c :: cs) (c :: cs) = true := by
        have h := isPrefOf_append (c :: cs) []
        rwa [List.append_nil] at h
      simp [hasSub, hp]
  | cons p pre ih => simp [hasSub, ih]

/-- A stored upload with an unsupported extension, for the C9 instances. -/
def fileExe : FileData :=
  ⟨str "malware.exe", [], .ok [], .ok [], .ok [], .ok []⟩

/-- The same unsupported upload as seen by `src/main.py` `extract`. -/
def uExe : SrcUpload :=
  ⟨str "malware.exe", ⟨.ok [], .ok [], .ok []⟩, .ok []⟩

/-- C9 counterexample: the `/extract` endpoint of `src/main.py` answers an
unsupported upload (`.exe`) with the plain placeholder `NR` — not a `Failure`
and with no mention of the kind or extension. -/
theorem unsupported_kind_cex :
    extract_endpoint_src uExe 80 120000 = str "NR"
      ∧ hasSub (str "exe") (extract_endpoint_src uExe 80 120000) = false := by decide

/-- C9 (amended): in `src/app/main.py` an unsupported kind classifies as
`unsupported` and `extract_text_from_any` fails with
`Tipo de archivo no soportado: <ext>`, whose message mentions the extension
(the batch loops render it inline, so nothing crashes); in `src/main.py` the
`/extract` endpoint instead returns the placeholder `NR` without naming the
kind. -/
theorem unsupported_kind_failure (f : FileData)
    (h1 : _ext f.filename ∉ TEXT_EXTS) (h2 : _ext f.filename ∉ IMAGE_EXTS)
    (h3 : _ext f.filename ∉ PDF_EXTS) (h4 : _ext f.filename ∉ AUDIO_EXTS) :
    (∀ ct, classify f.filename ct = DocumentKind.unsupported)
      ∧ extract_text_from_any f
        = Except.error (str "Tipo de archivo no soportado: " ++ _ext f.filename)
      ∧ hasSub (_ext f.filename)
          (str "Tipo de archivo no soportado: " ++ _ext f.filename) = true := by
  refine ⟨?_, ?_, hasSub_append _ _⟩
  · intro ct
    simp only [classify]
    rw [if_neg h1, if_neg h2, if_neg h3, if_neg h4]
  · simp only [extract_text_from_any]
    rw [if_neg h1, if_neg h2, if_neg h3]

theorem unsupported_kind_failure_witness :
    (_ext (str "malware.exe") ∉ TEXT_EXTS ∧ _ext (str "malware.exe") ∉ IMAGE_EXTS
      ∧ _ext (str "malware.exe") ∉ PDF_EXTS ∧ _ext (str "malware.exe") ∉ AUDIO_EXTS)
      ∧ extract_text_from_any fileExe
        = Except.error (str "Tipo de archivo no soportado: " ++ _ext (str "malware.exe")) :=
  ⟨⟨by decide, by decide, by decide, by decide⟩,
    (unsupported_kind_failure fileExe (by decide) (by decide) (by decide) (by decide)).2.1⟩

/-! ### Refiner response repair (C10) -/

theorem coerce_ok_ne (container : JValue) (k s : Str)
    (h : coerceField container k = .ok s) : s ≠ [] := by
  unfold coerceField at h
  cases hg : pyGet container k with
  | error e => simp only [hg] at h; exact Except.noConfusion h
  | ok v =>
    simp only [hg] at h
    cases hs : pyStripMethod (pyOr v (.jstr [])) with
    | error e => simp only [hs] at h; exact Except.noConfusion h
    | ok s' =>
      simp only [hs] at h
      have hinj : (if s' = [] then str "NR" else s') = s := Except.ok.inj h
      rw [← hinj]
      by_cases he : s' = []
      · rw [if_pos he]; decide
      · rw [if_neg he]; exact he

theorem refineBody_ok_ne (data : JValue) (out : SoapOut)
    (h : refineBody data = .ok out) :
    out.S ≠ [] ∧ out.O ≠ [] ∧ out.A ≠ [] ∧ out.P ≠ []
      ∧ out.summary ≠ [] ∧ out.rp ≠ [] := by
  unfold refineBody at h
  cases h0 : pyGet data (str "soap") with
  | error e => simp only [h0] at h; exact Except.noConfusion h
  | ok soapRaw =>
    simp only [h0] at h
    cases h1 : coerceField (pyOr soapRaw (.jobj [])) (str "S") with
    | error e => simp only [h1] at h; exact Except.noConfusion h
    | ok sS =>
      simp only [h1] at h
      cases h2 : coerceField (pyOr soapRaw (.jobj [])) (str "O") with
      | error e => simp only [h2] at h; exact Except.noConfusion h
      | ok sO =>
        simp only [h2] at h
        cases h3 : coerceField (pyOr soapRaw (.jobj [])) (str "A") with
        | error e => simp only [h3] at h; exact Except.noConfusion h
        | ok sA =>
          simp only [h3] at h
          cases h4 : coerceField (pyOr soapRaw (.jobj [])) (str "P") with
          | error e => simp only [h4] at h; exact Except.noConfusion h
          | ok sP =>
            simp only [h4] at h
            cases h5 : coerceField data (str "summary") with
            | error e => simp only [h5] at h; exact Except.noConfusion h
            | ok sSummary =>
              simp only [h5] at h
              cases h6 : coerceField data (str "rp") with
              | error e => simp only [h6] at h; exact Except.noConfusion h
              | ok sRp =>
                simp only [h6] at h
                have hout : (⟨sS, sO, sA, sP, sSummary, sRp⟩ : SoapOut) = out :=
                  Except.ok.inj h
                rw [← hout]
                exact ⟨coerce_ok_ne _ _ _ h1, coerce_ok_ne _ _ _ h2,
                  coerce_ok_ne _ _ _ h3, coerce_ok_ne _ _ _ h4,
                  coerce_ok_ne _ _ _ h5, coerce_ok_ne _ _ _ h6⟩

/-- C10: `refine_with_openai` never raises and always repairs the response
shape: whatever the refiner client produced — an exception, malformed JSON, a
non-dict, missing keys, empty or whitespace values — the result has all four
SOAP keys and non-empty `S`, `O`, `A`, `P`, `summary`, `rp`; an entirely
missing `soap` object yields `NR` in every field, and a client exception
yields the fixed fallback dict with the error message in `A`. -/
theorem refine_repair_total (r : Except Str JValue) :
    (refine_with_openai r).S ≠ [] ∧ (refine_with_openai r).O ≠ []
      ∧ (refine_with_openai r).A ≠ [] ∧ (refine_with_openai r).P ≠ []
      ∧ (refine_with_openai r).summary ≠ [] ∧ (refine_with_openai r).rp ≠ []
      ∧ refine_with_openai (Except.ok (JValue.jobj []))
        = ⟨str "NR", str "NR", str "NR", str "NR", str "NR", str "NR"⟩
      ∧ (∀ m : Str, refine_with_openai (Except.error m)
          = ⟨str "NR", str "NR", str "Error IA: " ++ m, str "NR", str "NR", str "NR"⟩) := by
  have herr : ∀ m : Str, refine_with_openai (Except.error m)
      = ⟨str "NR", str "NR", str "Error IA: " ++ m, str "NR", str "NR", str "NR"⟩ :=
    fun _ => rfl
  have hA : ∀ m : Str, (str "Error IA: " ++ m) ≠ [] := by
    intro m hcontra
    have hlen := congrArg List.length hcontra
    rw [List.length_append, List.length_nil] at hlen
    have h10 : (str "Error IA: ").length = 10 := by decide
    omega
  have hNR : str "NR" ≠ [] := by decide
  cases r with
  | error e =>
    exact ⟨by rw [herr e]; exact hNR, by rw [herr e]; exact hNR, by rw [herr e]; exact hA e,
      by rw [herr e]; exact hNR, by rw [herr e]; exact hNR, by rw [herr e]; exact hNR,
      by decide, herr⟩
  | ok data =>
    cases hb : refineBody data with
    | error e =>
      have hre : refine_with_openai (Except.ok data)
          = ⟨str "NR", str "NR", str "Error IA: " ++ e, str "NR", str "NR", str "NR"⟩ := by
        unfold refine_with_openai
        simp only [hb]
      exact ⟨by rw [hre]; exact hNR, by rw [hre]; exact hNR, by rw [hre]; exact hA e,
        by rw [hre]; exact hNR, by rw [hre]; exact hNR, by rw [hre]; exact hNR,
        by decide, herr⟩
    | ok out =>
      have hre : refine_with_openai (Except.ok data) = out := by
        unfold refine_with_openai
        simp only [hb]
      obtain ⟨hS, hO, hA', hP, hsum, hrp⟩ := refineBody_ok_ne data out hb
      exact ⟨by rw [hre]; exact hS, by rw [hre]; exact hO, by rw [hre]; exact hA',
        by rw [hre]; exact hP, by rw [hre]; exact hsum, by rw [hre]; exact hrp,
        by decide, herr⟩

end Mayu
